import Mathlib

/-! endpointping: a shallow embedding of `endpointping.go`

The program reads a comma-separated list of URLs from a file, issues one
HTTP GET per URL from its own goroutine, collects `(url, status code)` pairs in
a shared slice and writes one line per pair to an output file.

Conventions of the embedding:

* A Go `error` value is `Option GoError`; `none` is `nil`.
* A pointer that may be `nil` (`*os.File`, `*http.Response`) is an `Option`.
* The operating system and the network are parameters (`OS`, `Client`): they
  give, for each call the program makes, the values the call returns.
* A run of a function is a `Run α`: the trace of externally visible effects
  (lines printed, files created, data written) in program order, and the way
  the run ended: a return value, `os.Exit(code)`, or a run-time panic of the
  goroutine that runs the function. After `os.Exit` nothing else runs, deferred
  calls included.
* A panic inside a goroutine started with `go` does not end the process at
  once: the deferred calls of the goroutine run, the goroutine ends, and the Go
  runtime ends the process some time later, while the other goroutines go on.
  Such a run is marked `dying`, see `Run`.
* `defer f(args)` evaluates `args` at the `defer` statement and calls `f` when
  the surrounding function returns; the embedding writes both places out.
* A Go `string` is a `String`. The program only compares, concatenates and
  prints strings and cuts one at the one-byte separator `,`, which acts on
  characters as it does on bytes; an `int` is an `Int`.
* Goroutines are interleaved by an explicit schedule, see `stepTask`. The
  interleaving is at the granularity of the read and the write of `pc.urls`.
-/

namespace Endpointping

/-! ## Errors, results, traces -/

/-- A non-nil Go `error`. `ErrNotExist` is what `os.IsNotExist` recognises,
`ErrInvalid` is `os.ErrInvalid`, returned by the methods of a nil `*os.File`. -/
inductive GoError where
  | ErrNotExist
  | ErrInvalid
  | other (msg : String)
deriving DecidableEq

/-- How a run ends. -/
inductive Result (α : Type) where
  | ret (a : α)
  | exit (code : Int)
  | panic
deriving DecidableEq

/-- An externally visible effect. -/
inductive Event where
  | print (line : String)
  | create (path : String)
  | write (path : String) (data : String)
deriving DecidableEq

/-- A run: the effects performed, oldest first, and the way it ended.

`dying = some k` says that a goroutine started with `go` panicked when `k`
events of the trace had happened. From then on the Go runtime is ending the
process, which it does at a moment of its own choosing: the first `k` events
have happened, of the later ones an initial part only, and `res` is reached
only if the process lives that long. `dying = none` says that no goroutine
panicked: the trace and `res` are what the process does. -/
structure Run (α : Type) where
  trace : List Event
  res : Result α
  dying : Option Nat := none
deriving DecidableEq

/-- The moment of the first goroutine panic in two runs, one after the other,
the first of which performed `n` events. -/
def dyingThen (first : Option Nat) (n : Nat) (second : Option Nat) : Option Nat :=
  match first with
  | some k => some k
  | none => second.map (fun k => n + k)

/-- Sequencing: the second part runs only if the first one returned. -/
def Run.bind {α β : Type} (x : Run α) (f : α → Run β) : Run β :=
  match x.res with
  | Result.ret a =>
      { trace := x.trace ++ (f a).trace, res := (f a).res,
        dying := dyingThen x.dying x.trace.length (f a).dying }
  | Result.exit c => { trace := x.trace, res := Result.exit c, dying := x.dying }
  | Result.panic => { trace := x.trace, res := Result.panic, dying := x.dying }

instance : Monad Run where
  pure a := { trace := [], res := Result.ret a }
  bind := Run.bind

/-- The call `fmt.Println(msg)`. -/
def Println (msg : String) : Run Unit :=
  { trace := [Event.print msg], res := Result.ret () }

/-- The call `os.Exit(code)`. -/
def os_Exit {α : Type} (code : Int) : Run α :=
  { trace := [], res := Result.exit code }

/-- A run-time panic of the running goroutine, here always a nil pointer
dereference. -/
def nilDereference {α : Type} : Run α :=
  { trace := [], res := Result.panic }

/-- The lines printed on standard output by a trace. -/
def printed : List Event → List String
  | [] => []
  | Event.print l :: es => l :: printed es
  | _ :: es => printed es

/-- The content of file `path` after a trace, from its content `init` before
(`none`: the file does not exist). `create` truncates, `write` appends. -/
def contentAfter (path : String) : List Event → Option String → Option String
  | [], init => init
  | Event.create p :: es, init =>
      contentAfter path es (if p = path then some "" else init)
  | Event.write p d :: es, init =>
      contentAfter path es (if p = path then some ((init.getD "") ++ d) else init)
  | Event.print _ :: es, init => contentAfter path es init

/-! ## The environment -/

/-- An open `*os.File`, given by what its methods return. -/
structure File where
  closeErr : Option GoError
  syncErr : Option GoError
  writeErr : String → Option GoError

/-- The method `fh.Close()`; a nil receiver returns `os.ErrInvalid`. -/
def File.Close : Option File → Option GoError
  | none => some GoError.ErrInvalid
  | some f => f.closeErr

/-- The method `fh.Sync()`; a nil receiver returns `os.ErrInvalid`. -/
def File.Sync : Option File → Option GoError
  | none => some GoError.ErrInvalid
  | some f => f.syncErr

/-- The error returned by `fh.WriteString(s)`; a nil receiver returns
`os.ErrInvalid`. -/
def File.WriteStringErr : Option File → String → Option GoError
  | none, _ => some GoError.ErrInvalid
  | some f, s => f.writeErr s

/-- The operating system, by the results of the calls the program makes. -/
structure OS where
  Stat : String → Option GoError
  Open : String → Option File × Option GoError
  ReadFile : String → String × Option GoError
  Create : String → Option File × Option GoError

/-- The function `os.IsNotExist(err)`. -/
def os_IsNotExist : Option GoError → Bool
  | some GoError.ErrNotExist => true
  | _ => false

/-- The body of an HTTP response, by what `Close` returns. -/
structure Body where
  closeErr : Option GoError
deriving DecidableEq

/-- An `http.Response`, as far as the program looks at it. -/
structure Response where
  StatusCode : Int
  Body : Body
deriving DecidableEq

/-- An `http.Client`: what `client.Get(url)` returns. -/
structure Client where
  Get : String → Option Response × Option GoError

/-! ## The program -/

structure UrlStatus where
  url : String
  StatusCode : Int
deriving DecidableEq

structure UrlStatusCollection where
  urls : List UrlStatus
deriving DecidableEq

/-- The method `addPath`: `pc.urls = append(pc.urls, path)`, run without
interruption. -/
def UrlStatusCollection.addPath (pc : UrlStatusCollection) (path : UrlStatus) :
    UrlStatusCollection :=
  { urls := pc.urls ++ [path] }

def UrlStatusCollection.getPaths (pc : UrlStatusCollection) : List UrlStatus :=
  pc.urls

def eHandler (err : Option GoError) (msg : String) : Run Unit :=
  match err with
  | some _ => do
      Println msg
      os_Exit 1
  | none => pure ()

def fileExists (os : OS) (path : String) : Bool :=
  if os_IsNotExist (os.Stat path) then false else true

/-- Cutting a character sequence at every occurrence of `sep`. -/
def splitChars (sep : Char) : List Char → List (List Char)
  | [] => [[]]
  | c :: cs =>
      if c = sep then [] :: splitChars sep cs
      else
        match splitChars sep cs with
        | [] => [[c]]
        | w :: ws => (c :: w) :: ws

/-- The function `strings.Split(s, sep)` for a separator of one character, the
only way the program calls it. -/
def strings_Split (s : String) (sep : Char) : List String :=
  (splitChars sep s.data).map String.mk

def getEndpointList (os : OS) (path : String) : Run (List String) :=
  let (fh, err) := os.Open path
  -- `defer eHandler(fh.Close(), ...)`: the argument is evaluated here
  let closeErr := File.Close fh
  do
    eHandler err "Could not open input file"
    let (data, err) := os.ReadFile path
    eHandler err "Could not read input file"
    let result := strings_Split data ','
    -- the deferred call
    eHandler closeErr "Could not close file handler for reading endpoint list"
    pure result

def fuzzUrl (url : String) (client : Client) : Run UrlStatus :=
  let (response, err) := client.Get url
  -- `defer eHandler(response.Body.Close(), ...)`: the argument is evaluated
  -- here, which dereferences `response`
  match response with
  | none => nilDereference
  | some response =>
      let closeErr := response.Body.closeErr
      do
        eHandler err ("Error connecting to: " ++ url)
        let result := UrlStatus.mk url response.StatusCode
        -- the deferred call
        eHandler closeErr "Could not close response"
        pure result

/-! ### The fan-out of `fuzzUrls`

`fuzzUrls` starts one goroutine per url; each runs
`collection.addPath(fuzzUrl(url, client))`. `addPath` takes no lock, so its
body `pc.urls = append(pc.urls, path)` is a read of `pc.urls` followed, later,
by a write of the appended slice, and goroutines may run in between. A
goroutine therefore advances in three steps: the call of `fuzzUrl`, the read of
`pc.urls`, the write of `pc.urls` (after which it calls `wg.Done()`).

The goroutine starts with `defer wg.Done()`. When `fuzzUrl` panics, this
deferred call runs and the goroutine ends without calling `addPath`; the
runtime then ends the process, but not before `wg.Wait()` may have let
`fuzzUrls` return. When `fuzzUrl` calls `os.Exit`, the process ends at once and
no deferred call runs. -/

/-- Where a goroutine of `fuzzUrls` stands; `done` is the goroutine that has
called `wg.Done()`, after its write of `pc.urls` or while panicking. -/
inductive Task where
  | spawned (url : String)
  | fetched (path : UrlStatus)
  | loaded (path : UrlStatus) (old : List UrlStatus)
  | done
deriving DecidableEq

/-- The shared collection and the goroutines, in the order of the urls. -/
structure FanOut where
  collection : UrlStatusCollection
  tasks : List Task
deriving DecidableEq

/-- One step of goroutine `i`. `os.Exit` inside `fuzzUrl` ends the whole
process. A panic inside `fuzzUrl` ends the goroutine, whose deferred
`wg.Done()` runs, and leaves the process dying. A goroutine that has finished,
or an index that names none, leaves the state as it is. -/
def stepTask (client : Client) (i : Nat) (s : FanOut) : Run FanOut :=
  match s.tasks[i]? with
  | some (Task.spawned url) =>
      let r := fuzzUrl url client
      match r.res with
      | Result.ret path =>
          { trace := r.trace,
            res := Result.ret { s with tasks := s.tasks.set i (Task.fetched path) } }
      | Result.exit code => { trace := r.trace, res := Result.exit code }
      | Result.panic =>
          { trace := r.trace,
            res := Result.ret { s with tasks := s.tasks.set i Task.done },
            dying := some r.trace.length }
  | some (Task.fetched path) =>
      pure { s with tasks := s.tasks.set i (Task.loaded path s.collection.urls) }
  | some (Task.loaded path old) =>
      pure { collection := UrlStatusCollection.addPath { urls := old } path,
             tasks := s.tasks.set i Task.done }
  | some Task.done => pure s
  | none => pure s

/-- The steps of a schedule, one after the other. -/
def runSched (client : Client) : List Nat → FanOut → Run FanOut
  | [], s => pure s
  | i :: rest, s => do
      let s ← stepTask client i s
      runSched client rest s

/-- Each of the goroutines `0 .. n-1` in turn, three steps each: this brings
every goroutine that is still running to its end. -/
def drain (n : Nat) : List Nat :=
  (List.range n).flatMap (fun i => [i, i, i])

/-- The state after the `for` loop: an empty collection, all goroutines
started. -/
def FanOut.init (urls : List String) : FanOut :=
  { collection := { urls := [] }, tasks := urls.map Task.spawned }

/-- The function `fuzzUrls`. The goroutines take their steps in the order
`sched` names them (the choice of the Go scheduler); `wg.Wait()` lets the ones
that are still running finish, which they do one after the other; then the
collection is returned. When a goroutine panicked, the collection is returned
by a run that is `dying`. -/
def fuzzUrls (client : Client) (urls : List String) (sched : List Nat) :
    Run UrlStatusCollection := do
  let s ← runSched client (sched ++ drain urls.length) (FanOut.init urls)
  pure s.collection

def displayIntro : Run Unit := do
  Println "    _______           __               __         __   "
  Println "   |    ___|.-----.--|  |.-----.-----.|__|.-----.|  |_ "
  Println "   |    ___||     |  _  ||  _  |  _  ||  ||     ||   _|"
  Println "   |_______||__|__|_____||   __|_____||__||__|__||____|"
  Println "                         |__|"
  Println "                   ______ __"
  Println "                  |   __ \\__|.-----.-----."
  Println "                  |    __/  ||     |  _  |"
  Println "                  |___|  |__||__|__|___  |"
  Println "                                   |_____|"

/-- The function `displayHelp`; `flag.PrintDefaults()` writes to standard
error, which the trace does not record. -/
def displayHelp : Run Unit := do
  Println "    _   _  ____  __    ____    "
  Println "   ( )_( )( ___)(  )  (  _ \\  "
  Println "    ) _ (  )__)  )(__  )___/   "
  Println "   (_) (_)(____)(____)(__)     "
  Println "  ===========================  "
  Println ""
  Println ""

def validateFlags (os : OS) (help : Bool) (endpointListPath : String)
    (outputFilePath : String) : Run Unit := do
  if help then
    displayHelp
    os_Exit 0
  if outputFilePath.length ≤ 0 then
    Println "Please provide Path to output file"
  if !fileExists os endpointListPath then
    Println "Please provide path to list of endpoints. Use -h for help."
    os_Exit 0

/-- The function `parseFlags`; the values `flag.Parse()` found on the command
line are the arguments `help`, `endpointListPath` and `outputFilePath`. -/
def parseFlags (os : OS) (help : Bool) (endpointListPath : String)
    (outputFilePath : String) : Run (Bool × String × String) := do
  validateFlags os help endpointListPath outputFilePath
  pure (help, endpointListPath, outputFilePath)

/-- The line `fmt.Sprintf("%v   -   %s\n", urlStatus.StatusCode, urlStatus.url)`;
`%v` prints an `int` in decimal. -/
def formatLine (urlStatus : UrlStatus) : String :=
  toString urlStatus.StatusCode ++ "   -   " ++ urlStatus.url ++ "\n"

/-- The method `fh.WriteString(s)` on the file created at `path`: the data
reaches the file when no error is returned. -/
def File.WriteString (fh : Option File) (path : String) (s : String) :
    Run (Option GoError) :=
  match File.WriteStringErr fh s with
  | none => { trace := [Event.write path s], res := Result.ret none }
  | some e => pure (some e)

/-- The function `os.Create(path)`: the file exists and is empty when no error
is returned. -/
def os_Create (os : OS) (path : String) : Run (Option File × Option GoError) :=
  match os.Create path with
  | (fh, none) => { trace := [Event.create path], res := Result.ret (fh, none) }
  | (fh, some e) => pure (fh, some e)

/-- The `for` loop of `writeOutput`. -/
def writeLines (fh : Option File) (outputFile : String) : List UrlStatus → Run Unit
  | [] => pure ()
  | urlStatus :: rest => do
      let err ← File.WriteString fh outputFile (formatLine urlStatus)
      eHandler err "Failed to write line"
      writeLines fh outputFile rest

def writeOutput (os : OS) (collection : UrlStatusCollection) (outputFile : String) :
    Run Unit := do
  let (fh, err) ← os_Create os outputFile
  eHandler err "Could not create output file"
  writeLines fh outputFile collection.getPaths
  eHandler (File.Sync fh) "Could not sync with file"
  -- the deferred closure
  let err := File.Close fh
  eHandler err "Could not close file"

/-- The function `init` followed by `main`. -/
def main (os : OS) (client : Client) (help : Bool) (l : String) (o : String)
    (sched : List Nat) : Run Unit := do
  displayIntro
  let (_, endpointListPath, outputFilePath) ← parseFlags os help l o
  let results ← fuzzUrls client (← getEndpointList os endpointListPath) sched
  writeOutput os results outputFilePath

/-! ## Auxiliary definitions for the statements -/

/-- Gluing pieces back together with the separator in front of every piece but
the first. -/
def glue (sep : Char) : List (List Char) → List Char
  | [] => []
  | w :: ws => w ++ ws.flatMap (fun a => sep :: a)

/-! ## Example environments -/

/-- A file handle all of whose operations succeed. -/
def okFile : File :=
  { closeErr := none, syncErr := none, writeErr := fun _ => none }

/-- A file handle that cannot be closed. -/
def badCloseFile : File :=
  { closeErr := some (GoError.other "close: input/output error"), syncErr := none,
    writeErr := fun _ => none }

/-- A system on which every file exists with the given content and every
operation succeeds. -/
def diskOS (content : String) : OS :=
  { Stat := fun _ => none,
    Open := fun _ => (some okFile, none),
    ReadFile := fun _ => (content, none),
    Create := fun _ => (some okFile, none) }

/-- A system on which no file exists to be read. -/
def missingOS : OS :=
  { Stat := fun _ => some GoError.ErrNotExist,
    Open := fun _ => (none, some GoError.ErrNotExist),
    ReadFile := fun _ => ("", some GoError.ErrNotExist),
    Create := fun _ => (some okFile, none) }

/-- A system on which every path is a directory: it opens, but cannot be read
as a file. -/
def dirOS : OS :=
  { Stat := fun _ => none,
    Open := fun _ => (some okFile, none),
    ReadFile := fun _ => ("", some (GoError.other "read: is a directory")),
    Create := fun _ => (none, some (GoError.other "open: is a directory")) }

/-- A system on which "/etc/passwd" is a regular file, so that
"/etc/passwd/x" names no file: `os.Stat` fails on it, with the error "not a
directory", which `os.IsNotExist` does not recognise, and `os.Open` fails as
well. Every other path is a file with the given content. -/
def notDirOS (content : String) : OS :=
  { Stat := fun path =>
      if path = "/etc/passwd/x" then
        some (GoError.other "stat /etc/passwd/x: not a directory")
      else none,
    Open := fun path =>
      if path = "/etc/passwd/x" then
        (none, some (GoError.other "open /etc/passwd/x: not a directory"))
      else (some okFile, none),
    ReadFile := fun path =>
      if path = "/etc/passwd/x" then
        ("", some (GoError.other "open /etc/passwd/x: not a directory"))
      else (content, none),
    Create := fun _ => (some okFile, none) }

/-- A system whose files open and read, but whose handles cannot be closed. -/
def badCloseOS (content : String) : OS :=
  { Stat := fun _ => none,
    Open := fun _ => (some badCloseFile, none),
    ReadFile := fun _ => (content, none),
    Create := fun _ => (some okFile, none) }

/-- A small network: two hosts that answer, one that redirects for ever, one
whose response body cannot be closed; every other request is refused. -/
def webClient : Client :=
  { Get := fun url =>
      if url = "http://ok.test" then
        (some { StatusCode := 200, Body := { closeErr := none } }, none)
      else if url = "http://missing.test" then
        (some { StatusCode := 404, Body := { closeErr := none } }, none)
      else if url = "http://loop.test" then
        (some { StatusCode := 302, Body := { closeErr := none } },
          some (GoError.other "stopped after 10 redirects"))
      else if url = "http://badclose.test" then
        (some { StatusCode := 200,
                Body := { closeErr := some (GoError.other "close: connection reset") } },
          none)
      else (none, some (GoError.other "connection refused")) }

/-- A network on which every host answers 200. -/
def allOkClient : Client :=
  { Get := fun _ => (some { StatusCode := 200, Body := { closeErr := none } }, none) }

/-! ## Schedules under which the calls of `addPath` do not overlap -/

/-- How far a goroutine has come: 0 before `fuzzUrl`, 1 before the read of
`pc.urls`, 2 before the write, 3 at its end. -/
def Task.stage : Task → Nat
  | Task.spawned _ => 0
  | Task.fetched _ => 1
  | Task.loaded _ _ => 2
  | Task.done => 3

/-- Whether a goroutine is inside `addPath`: it has read `pc.urls` and has not
yet written it back. -/
def Task.inAddPath : Task → Bool
  | Task.loaded _ _ => true
  | _ => false

/-- Whether the next step of goroutine `i` keeps the calls of `addPath` apart:
a goroutine about to read `pc.urls` may do so only when no goroutine is inside
`addPath`. -/
def mayStep (i : Nat) (s : FanOut) : Bool :=
  match s.tasks[i]? with
  | some (Task.fetched _) => s.tasks.all (fun t => !t.inAddPath)
  | _ => true

/-- Whether, running the schedule from state `s`, the calls of `addPath` never
overlap. -/
def Serialized (client : Client) : List Nat → FanOut → Bool
  | [], _ => true
  | i :: rest, s =>
      mayStep i s &&
        match (stepTask client i s).res with
        | Result.ret s' => Serialized client rest s'
        | _ => true

/-- The outcomes a goroutine has still to append, `outcome url` being what
`fuzzUrl` returns for `url`. -/
def Task.pending (outcome : String → UrlStatus) : Task → List UrlStatus
  | Task.spawned url => [outcome url]
  | Task.fetched path => [path]
  | Task.loaded path _ => [path]
  | Task.done => []

/-- The outcomes appended so far followed by those still to be appended. -/
def FanOut.owed (outcome : String → UrlStatus) (s : FanOut) : List UrlStatus :=
  s.collection.urls ++ s.tasks.flatMap (Task.pending outcome)

/-- At most one goroutine is inside `addPath`, and the slice it has read is
the current one. -/
def Exclusive (s : FanOut) : Prop :=
  ∀ (i : Nat) p old, s.tasks[i]? = some (Task.loaded p old) →
    old = s.collection.urls ∧
      ∀ (j : Nat) q old', s.tasks[j]? = some (Task.loaded q old') → j = i

/-- The status code of the response `client.Get(url)` returns, 0 when there is
none. -/
def statusOf (client : Client) (url : String) : Int :=
  match (client.Get url).1 with
  | some r => r.StatusCode
  | none => 0

/-- The goroutines of `fuzzUrls` at the point where each holds the outcome of
its `fuzzUrl` and is about to call `addPath` on the empty collection. -/
def FanOut.fetched (paths : List UrlStatus) : FanOut :=
  { collection := { urls := [] }, tasks := paths.map Task.fetched }

/-- A trace that touches no file. -/
def PrintsOnly (tr : List Event) : Prop :=
  ∀ e ∈ tr, ∃ line, e = Event.print line

/-! ## Sequencing lemmas -/

@[simp]
theorem dyingThen_none (n : Nat) : dyingThen none n none = none := rfl

@[simp]
theorem dyingThen_some (k n : Nat) (second : Option Nat) :
    dyingThen (some k) n second = some k := rfl

theorem run_bind {α β : Type} (x : Run α) (f : α → Run β) : (x >>= f) = Run.bind x f := rfl

theorem run_pure {α : Type} (a : α) : (pure a : Run α) = { trace := [], res := Result.ret a } := rfl

theorem eHandler_none (msg : String) :
    eHandler none msg = { trace := [], res := Result.ret () } := rfl

theorem eHandler_some (e : GoError) (msg : String) :
    eHandler (some e) msg = { trace := [Event.print msg], res := Result.exit 1 } := rfl

/-! ## Splitting at a separator -/

theorem splitChars_ne_nil (sep : Char) (cs : List Char) : splitChars sep cs ≠ [] := by
  cases cs with
  | nil => simp [splitChars]
  | cons c cs =>
    unfold splitChars
    split_ifs
    · simp
    · split <;> simp

theorem splitChars_length (sep : Char) (cs : List Char) :
    (splitChars sep cs).length = cs.count sep + 1 := by
  induction cs with
  | nil => simp [splitChars]
  | cons c cs ih =>
    unfold splitChars
    by_cases h : c = sep
    · subst h
      simp [ih]
    · have hne : (c == sep) = false := by simpa using h
      rw [if_neg h, List.count_cons, hne]
      cases hs : splitChars sep cs with
      | nil => exact absurd hs (splitChars_ne_nil sep cs)
      | cons w ws =>
        rw [hs] at ih
        simpa using ih

theorem splitChars_no_sep (sep : Char) (cs : List Char) :
    ∀ w ∈ splitChars sep cs, sep ∉ w := by
  induction cs with
  | nil => simp [splitChars]
  | cons c cs ih =>
    unfold splitChars
    by_cases h : c = sep
    · rw [if_pos h]
      intro w hw
      rcases List.mem_cons.mp hw with rfl | hw
      · simp
      · exact ih w hw
    · rw [if_neg h]
      cases hs : splitChars sep cs with
      | nil => exact absurd hs (splitChars_ne_nil sep cs)
      | cons w ws =>
        rw [hs] at ih
        intro v hv
        rcases List.mem_cons.mp hv with rfl | hv
        · intro hmem
          rcases List.mem_cons.mp hmem with heq | hmem
          · exact h heq.symm
          · exact ih w (List.mem_cons_self _ _) hmem
        · exact ih v (List.mem_cons_of_mem _ hv)

theorem glue_splitChars (sep : Char) (cs : List Char) : glue sep (splitChars sep cs) = cs := by
  induction cs with
  | nil => simp [splitChars, glue]
  | cons c cs ih =>
    unfold splitChars
    by_cases h : c = sep
    · rw [if_pos h]
      cases hs : splitChars sep cs with
      | nil => exact absurd hs (splitChars_ne_nil sep cs)
      | cons w ws =>
        rw [hs] at ih
        simp only [glue] at ih ⊢
        simp [h, ih]
    · rw [if_neg h]
      cases hs : splitChars sep cs with
      | nil => exact absurd hs (splitChars_ne_nil sep cs)
      | cons w ws =>
        rw [hs] at ih
        simp only [glue] at ih ⊢
        simp [ih]

theorem intercalate_go_data (s : String) (l : List String) (acc : String) :
    (String.intercalate.go acc s l).data = acc.data ++ l.flatMap (fun a => s.data ++ a.data) := by
  induction l generalizing acc with
  | nil => simp [String.intercalate.go]
  | cons a l ih => simp [String.intercalate.go, ih, String.data_append]

theorem intercalate_mk (sep : Char) (ws : List (List Char)) :
    (String.intercalate (String.singleton sep) (ws.map String.mk)).data = glue sep ws := by
  cases ws with
  | nil => simp [String.intercalate, glue]
  | cons w ws =>
    simp [String.intercalate, glue, intercalate_go_data, List.flatMap_map, String.singleton]

/-! ## Decimal numerals contain no line break -/

theorem ite_ne_of {P : Prop} [Decidable P] {a b c : Char} (ha : a ≠ c) (hb : b ≠ c) :
    (if P then a else b) ≠ c := by
  split <;> assumption

theorem digitChar_ne_newline (k : Nat) : Nat.digitChar k ≠ '\n' := by
  unfold Nat.digitChar
  iterate 16 refine ite_ne_of (by decide) ?_
  decide

theorem toDigitsCore_no_newline (b : Nat) (fuel n : Nat) (ds : List Char)
    (h : '\n' ∉ ds) : '\n' ∉ Nat.toDigitsCore b fuel n ds := by
  induction fuel generalizing n ds with
  | zero => simpa [Nat.toDigitsCore] using h
  | succ fuel ih =>
    unfold Nat.toDigitsCore
    have hd : '\n' ∉ Nat.digitChar (n % b) :: ds := by
      intro hmem
      rcases List.mem_cons.mp hmem with heq | hmem
      · exact digitChar_ne_newline _ heq.symm
      · exact h hmem
    simp only
    split_ifs
    · exact hd
    · exact ih _ _ hd

theorem nat_toString_no_newline (n : Nat) : '\n' ∉ (toString n).data := by
  show '\n' ∉ (Nat.repr n).data
  unfold Nat.repr Nat.toDigits
  exact toDigitsCore_no_newline 10 _ _ _ (by simp)

theorem int_toString_no_newline (i : Int) : '\n' ∉ (toString i).data := by
  cases i with
  | ofNat n => exact nat_toString_no_newline n
  | negSucc n =>
    show '\n' ∉ ("-" ++ toString (Nat.succ n)).data
    rw [String.data_append]
    intro h
    rcases List.mem_append.mp h with h | h
    · revert h; decide
    · exact nat_toString_no_newline _ h

theorem formatLine_count (u : UrlStatus) (h : '\n' ∉ u.url.data) :
    (formatLine u).data.count '\n' = 1 := by
  unfold formatLine
  simp only [String.data_append, List.count_append]
  rw [List.count_eq_zero_of_not_mem (int_toString_no_newline _),
    List.count_eq_zero_of_not_mem h]
  decide

/-! ## Writing the output -/

theorem join_foldl_data (l : List String) (acc : String) :
    (l.foldl (fun r s => r ++ s) acc).data = acc.data ++ l.flatMap String.data := by
  induction l generalizing acc with
  | nil => simp
  | cons a l ih => simp [ih, String.data_append]

theorem join_data (l : List String) : (String.join l).data = l.flatMap String.data := by
  unfold String.join
  rw [join_foldl_data]
  rfl

theorem join_formatLine_count (ps : List UrlStatus) (h : ∀ u ∈ ps, '\n' ∉ u.url.data) :
    (String.join (ps.map formatLine)).data.count '\n' = ps.length := by
  rw [join_data]
  induction ps with
  | nil => rfl
  | cons u ps ih =>
    simp only [List.map_cons, List.flatMap_cons, List.count_append, List.length_cons]
    rw [formatLine_count u (h u (List.mem_cons_self _ _)),
      ih (fun v hv => h v (List.mem_cons_of_mem _ hv))]
    omega

theorem writeLines_ok (fh : File) (o : String) (hw : ∀ s, fh.writeErr s = none)
    (ps : List UrlStatus) :
    writeLines (some fh) o ps =
      { trace := ps.map (fun u => Event.write o (formatLine u)), res := Result.ret () } := by
  induction ps with
  | nil => rfl
  | cons u ps ih =>
    simp [writeLines, File.WriteString, File.WriteStringErr, hw, run_bind, Run.bind,
      eHandler_none, ih]

theorem contentAfter_writes (o : String) (ps : List UrlStatus) (acc : String) :
    contentAfter o (ps.map (fun u => Event.write o (formatLine u))) (some acc) =
      some (acc ++ String.join (ps.map formatLine)) := by
  induction ps generalizing acc with
  | nil =>
    apply congrArg some
    apply String.ext
    simp [String.data_append, join_data]
  | cons u ps ih =>
    simp only [List.map_cons, contentAfter, if_true, Option.getD_some]
    rw [ih]
    apply congrArg some
    apply String.ext
    simp [String.data_append, join_data]

theorem writeOutput_ok (os : OS) (collection : UrlStatusCollection) (o : String) (fh : File)
    (hc : os.Create o = (some fh, none)) (hw : ∀ s, fh.writeErr s = none)
    (hs : fh.syncErr = none) (hcl : fh.closeErr = none) :
    writeOutput os collection o =
      { trace := Event.create o ::
          collection.getPaths.map (fun u => Event.write o (formatLine u)),
        res := Result.ret () } := by
  simp [writeOutput, os_Create, hc, run_bind, Run.bind, eHandler_none, writeLines_ok fh o hw,
    File.Sync, File.Close, hs, hcl, run_pure]

/-! ## Claims about the sequential functions -/

/-- C3, as amended: when `client.Get(url)` returns a response with status code
`s` and no error, and closing the response body reports no error, `fuzzUrl`
returns `UrlStatus{url, s}` with the url unchanged, prints nothing and does not
end the process. -/
theorem fuzzUrl_returns_status (url : String) (client : Client) (r : Response)
    (hget : client.Get url = (some r, none)) (hclose : r.Body.closeErr = none) :
    fuzzUrl url client =
      { trace := [], res := Result.ret { url := url, StatusCode := r.StatusCode } } := by
  simp [fuzzUrl, hget, hclose, run_bind, Run.bind, eHandler_none, run_pure]

theorem fuzzUrl_returns_status_witness :
    webClient.Get "http://missing.test"
        = (some { StatusCode := 404, Body := { closeErr := none } }, none) ∧
      fuzzUrl "http://missing.test" webClient =
        { trace := [],
          res := Result.ret { url := "http://missing.test", StatusCode := 404 } } :=
  ⟨by decide,
    fuzzUrl_returns_status "http://missing.test" webClient
      { StatusCode := 404, Body := { closeErr := none } } (by decide) rfl⟩

/-- C3, as stated, fails: a GET that returns status 200 and no error, but whose
body cannot be closed, makes `fuzzUrl` print a message and exit with code 1
instead of returning `UrlStatus{url, 200}`. -/
theorem fuzzUrl_close_failure_exits :
    webClient.Get "http://badclose.test"
        = (some { StatusCode := 200,
                  Body := { closeErr := some (GoError.other "close: connection reset") } },
           none) ∧
      fuzzUrl "http://badclose.test" webClient =
        { trace := [Event.print "Could not close response"], res := Result.exit 1 } ∧
      (fuzzUrl "http://badclose.test" webClient).res ≠
        Result.ret { url := "http://badclose.test", StatusCode := 200 } := by
  decide

/-- C10, the failing input: when `client.Get` returns a nil response and an
error, `fuzzUrl` dereferences the nil response while evaluating
`response.Body.Close()` and panics, before the error is looked at. -/
theorem fuzzUrl_nil_response_panics :
    webClient.Get "http://127.0.0.1:1/"
        = (none, some (GoError.other "connection refused")) ∧
      fuzzUrl "http://127.0.0.1:1/" webClient = { trace := [], res := Result.panic } := by
  decide

/-- C8: when the endpoint list file cannot be opened or cannot be read,
`getEndpointList` prints one message and exits with code 1: it neither panics
nor returns a list. This holds whatever handle `os.Open` returned with its
error, the nil handle included, whose `Close` is evaluated before the error is
checked. -/
theorem getEndpointList_aborts (os : OS) (path : String)
    (h : (os.Open path).2 ≠ none ∨ (os.ReadFile path).2 ≠ none) :
    getEndpointList os path =
      { trace := [Event.print (if (os.Open path).2 ≠ none then "Could not open input file"
                               else "Could not read input file")],
        res := Result.exit 1 } := by
  unfold getEndpointList
  rcases hO : os.Open path with ⟨fh, err⟩
  rcases hR : os.ReadFile path with ⟨data, rerr⟩
  rw [hO, hR] at h
  cases err with
  | some e => simp [run_bind, Run.bind, eHandler_some]
  | none =>
    cases rerr with
    | none => simp at h
    | some e => simp [run_bind, Run.bind, eHandler_some, eHandler_none]

theorem getEndpointList_aborts_witness :
    (missingOS.Open "urls.txt" = (none, some GoError.ErrNotExist) ∧
      getEndpointList missingOS "urls.txt" =
        { trace := [Event.print "Could not open input file"], res := Result.exit 1 }) ∧
    ((dirOS.Open "urls.txt").2 = none ∧
      getEndpointList dirOS "urls.txt" =
        { trace := [Event.print "Could not read input file"], res := Result.exit 1 }) :=
  ⟨⟨rfl, getEndpointList_aborts missingOS "urls.txt" (Or.inl (by decide))⟩,
   ⟨rfl, getEndpointList_aborts dirOS "urls.txt" (Or.inr (by decide))⟩⟩

/-- C9, as amended: `validateFlags` exits with code 0 when `help` is set,
whatever the other flags are; otherwise, when `os.Stat` on the endpoint list
path reports an error that `os.IsNotExist` recognises, it prints "Please
provide path to list of endpoints. Use -h for help." and exits with code 0;
otherwise, also when `os.Stat` fails with another error, it returns, even when
the output path is empty. -/
theorem validateFlags_exits (os : OS) (help : Bool) (endpointListPath outputFilePath : String) :
    (help = true →
      (validateFlags os help endpointListPath outputFilePath).res = Result.exit 0) ∧
    (help = false → os_IsNotExist (os.Stat endpointListPath) = true →
      (validateFlags os help endpointListPath outputFilePath).res = Result.exit 0 ∧
      Event.print "Please provide path to list of endpoints. Use -h for help." ∈
        (validateFlags os help endpointListPath outputFilePath).trace) ∧
    (help = false → os_IsNotExist (os.Stat endpointListPath) = false →
      (validateFlags os help endpointListPath outputFilePath).res = Result.ret ()) := by
  refine ⟨?_, ?_, ?_⟩
  · intro hh
    subst hh
    rfl
  · intro hh hf
    subst hh
    by_cases ho : outputFilePath.length ≤ 0 <;>
      simp [validateFlags, fileExists, hf, ho, run_bind, Run.bind, Println, os_Exit, run_pure]
  · intro hh hf
    subst hh
    by_cases ho : outputFilePath.length ≤ 0 <;>
      simp [validateFlags, fileExists, hf, ho, run_bind, Run.bind, Println, os_Exit, run_pure]

theorem validateFlags_exits_witness :
    (validateFlags missingOS true "urls.txt" "").res = Result.exit 0 ∧
    (os_IsNotExist (missingOS.Stat "urls.txt") = true ∧
      (validateFlags missingOS false "urls.txt" "result.txt").res = Result.exit 0 ∧
      Event.print "Please provide path to list of endpoints. Use -h for help." ∈
        (validateFlags missingOS false "urls.txt" "result.txt").trace) ∧
    (os_IsNotExist ((diskOS "").Stat "urls.txt") = false ∧
      (validateFlags (diskOS "") false "urls.txt" "").res = Result.ret ()) :=
  ⟨(validateFlags_exits missingOS true "urls.txt" "").1 rfl,
   ⟨rfl, (validateFlags_exits missingOS false "urls.txt" "result.txt").2.1 rfl rfl⟩,
   ⟨rfl, (validateFlags_exits (diskOS "") false "urls.txt" "").2.2 rfl rfl⟩⟩

/-- C9, as stated, fails: "/etc/passwd/x" names no existing file, `os.Stat` and
`os.Open` both fail on it with "not a directory", yet `validateFlags` prints
nothing and returns instead of exiting with code 0, because `fileExists` only
looks for a not-exist error. -/
theorem validateFlags_not_a_directory_returns :
    (notDirOS "").Stat "/etc/passwd/x" =
        some (GoError.other "stat /etc/passwd/x: not a directory") ∧
      ((notDirOS "").Open "/etc/passwd/x").2 =
        some (GoError.other "open /etc/passwd/x: not a directory") ∧
      fileExists (notDirOS "") "/etc/passwd/x" = true ∧
      validateFlags (notDirOS "") false "/etc/passwd/x" "result.txt" =
        { trace := [], res := Result.ret () } ∧
      (validateFlags (notDirOS "") false "/etc/passwd/x" "result.txt").res ≠
        Result.exit 0 := by
  decide

/-- C7, as amended: when the endpoint list file opens, its handle closes
without error and the read returns the content `d`, `getEndpointList` returns
`d` cut at every comma: the list has one entry more than `d` has commas, no
entry contains a comma (empty entries are kept), and joining the entries with
"," gives back `d`. -/
theorem getEndpointList_splits (os : OS) (path : String) (d : String)
    (hopen : (os.Open path).2 = none) (hclose : File.Close (os.Open path).1 = none)
    (hread : os.ReadFile path = (d, none)) :
    getEndpointList os path =
        { trace := [], res := Result.ret (strings_Split d ',') } ∧
      (strings_Split d ',').length = d.data.count ',' + 1 ∧
      (∀ e ∈ strings_Split d ',', ',' ∉ e.data) ∧
      String.intercalate "," (strings_Split d ',') = d := by
  refine ⟨?_, ?_, ?_, ?_⟩
  · unfold getEndpointList
    rcases hO : os.Open path with ⟨fh, err⟩
    rw [hO] at hopen hclose
    simp only at hopen hclose
    subst hopen
    simp [hread, hclose, run_bind, Run.bind, eHandler_none, run_pure]
  · simp [strings_Split, splitChars_length]
  · intro e he
    simp only [strings_Split, List.mem_map] at he
    obtain ⟨w, hw, rfl⟩ := he
    exact splitChars_no_sep ',' d.data w hw
  · apply String.ext
    have h := intercalate_mk ',' (splitChars ',' d.data)
    rw [glue_splitChars] at h
    exact h

theorem getEndpointList_splits_witness :
    ((diskOS "http://a.test,,http://b.test,").Open "urls.txt").2 = none ∧
      getEndpointList (diskOS "http://a.test,,http://b.test,") "urls.txt" =
        { trace := [], res := Result.ret ["http://a.test", "", "http://b.test", ""] } :=
  ⟨rfl,
   (getEndpointList_splits (diskOS "http://a.test,,http://b.test,") "urls.txt"
      "http://a.test,,http://b.test," rfl rfl rfl).1.trans (by decide)⟩

/-- C7, as stated, fails: a file that opens and reads as "a,b" but whose handle
cannot be closed makes `getEndpointList` print a message and exit with code 1
instead of returning the two entries. -/
theorem getEndpointList_close_failure_exits :
    (badCloseOS "a,b").Open "urls.txt" = (some badCloseFile, none) ∧
      (badCloseOS "a,b").ReadFile "urls.txt" = ("a,b", none) ∧
      getEndpointList (badCloseOS "a,b") "urls.txt" =
        { trace := [Event.print "Could not close file handler for reading endpoint list"],
          res := Result.exit 1 } ∧
      (getEndpointList (badCloseOS "a,b") "urls.txt").res ≠ Result.ret ["a", "b"] := by
  refine ⟨rfl, rfl, ?_, ?_⟩ <;> decide

/-- C5: when creating the output file, every write, the sync and the close
succeed, `writeOutput` returns, and the file it created holds exactly the lines
"<decimal StatusCode>   -   <url>\n" of the outcomes, concatenated in the order
of `getPaths`, whatever the file held before. An empty collection gives an
empty file, and when no url contains a line break the file has as many line
breaks as the collection has outcomes. -/
theorem writeOutput_content (os : OS) (collection : UrlStatusCollection) (outputFile : String)
    (fh : File) (hcreate : os.Create outputFile = (some fh, none))
    (hwrite : ∀ s, fh.writeErr s = none) (hsync : fh.syncErr = none)
    (hclose : fh.closeErr = none) (before : Option String) :
    (writeOutput os collection outputFile).res = Result.ret () ∧
      contentAfter outputFile (writeOutput os collection outputFile).trace before =
        some (String.join (collection.getPaths.map
          (fun u => toString u.StatusCode ++ "   -   " ++ u.url ++ "\n"))) ∧
      (collection.getPaths = [] →
        contentAfter outputFile (writeOutput os collection outputFile).trace before
          = some "") ∧
      ((∀ u ∈ collection.getPaths, '\n' ∉ u.url.data) →
        ∃ content,
          contentAfter outputFile (writeOutput os collection outputFile).trace before
            = some content ∧
          content.data.count '\n' = collection.getPaths.length) := by
  have hrun := writeOutput_ok os collection outputFile fh hcreate hwrite hsync hclose
  have hcontent :
      contentAfter outputFile (writeOutput os collection outputFile).trace before =
        some (String.join (collection.getPaths.map formatLine)) := by
    rw [hrun]
    simp only [contentAfter, if_true]
    rw [contentAfter_writes]
    apply congrArg some
    apply String.ext
    simp [String.data_append]
  refine ⟨by rw [hrun], hcontent, ?_, ?_⟩
  · intro hempty
    rw [hcontent, hempty]
    rfl
  · intro hnl
    exact ⟨_, hcontent, join_formatLine_count _ hnl⟩

theorem writeOutput_content_witness :
    (diskOS "").Create "result.txt" = (some okFile, none) ∧
      contentAfter "result.txt"
        (writeOutput (diskOS "")
          { urls := [{ url := "http://b.test", StatusCode := 404 },
                     { url := "http://a.test", StatusCode := 200 }] } "result.txt").trace
        (some "old content")
        = some "404   -   http://b.test\n200   -   http://a.test\n" :=
  ⟨rfl,
   ((writeOutput_content (diskOS "")
      { urls := [{ url := "http://b.test", StatusCode := 404 },
                 { url := "http://a.test", StatusCode := 200 }] } "result.txt"
      okFile rfl (fun _ => rfl) rfl rfl (some "old content")).2.1).trans (by decide)⟩

/-! ## The fan-out: what one step does -/

theorem bind_res_ret {α β : Type} (x : Run α) (f : α → Run β) (b : β)
    (h : (Run.bind x f).res = Result.ret b) :
    ∃ a, x.res = Result.ret a ∧ (f a).res = Result.ret b := by
  unfold Run.bind at h
  cases hx : x.res with
  | ret a =>
    rw [hx] at h
    exact ⟨a, rfl, h⟩
  | exit c => rw [hx] at h; cases h
  | panic => rw [hx] at h; cases h

/-- What a step that returns has done. -/
theorem stepTask_ret (client : Client) (i : Nat) (s s' : FanOut)
    (h : (stepTask client i s).res = Result.ret s') :
    (∃ u p, s.tasks[i]? = some (Task.spawned u) ∧ (fuzzUrl u client).res = Result.ret p ∧
        s' = { s with tasks := s.tasks.set i (Task.fetched p) }) ∨
    (∃ u, s.tasks[i]? = some (Task.spawned u) ∧ (fuzzUrl u client).res = Result.panic ∧
        s' = { s with tasks := s.tasks.set i Task.done }) ∨
    (∃ p, s.tasks[i]? = some (Task.fetched p) ∧
        s' = { s with tasks := s.tasks.set i (Task.loaded p s.collection.urls) }) ∨
    (∃ p old, s.tasks[i]? = some (Task.loaded p old) ∧
        s' = { collection := { urls := old ++ [p] }, tasks := s.tasks.set i Task.done }) ∨
    ((s.tasks[i]? = some Task.done ∨ s.tasks[i]? = none) ∧ s' = s) := by
  unfold stepTask at h
  cases ht : s.tasks[i]? with
  | none =>
    rw [ht] at h
    simp only [run_pure, Result.ret.injEq] at h
    exact Or.inr (Or.inr (Or.inr (Or.inr ⟨Or.inr rfl, h.symm⟩)))
  | some t =>
    rw [ht] at h
    cases t with
    | spawned u =>
      simp only at h
      cases hr : (fuzzUrl u client).res with
      | ret p =>
        rw [hr] at h
        simp only [Result.ret.injEq] at h
        exact Or.inl ⟨u, p, rfl, hr, h.symm⟩
      | exit c =>
        rw [hr] at h
        cases h
      | panic =>
        rw [hr] at h
        simp only [Result.ret.injEq] at h
        exact Or.inr (Or.inl ⟨u, rfl, hr, h.symm⟩)
    | fetched p =>
      simp only [run_pure, Result.ret.injEq] at h
      exact Or.inr (Or.inr (Or.inl ⟨p, rfl, h.symm⟩))
    | loaded p old =>
      simp only [run_pure, Result.ret.injEq, UrlStatusCollection.addPath] at h
      exact Or.inr (Or.inr (Or.inr (Or.inl ⟨p, old, rfl, h.symm⟩)))
    | done =>
      simp only [run_pure, Result.ret.injEq] at h
      exact Or.inr (Or.inr (Or.inr (Or.inr ⟨Or.inl rfl, h.symm⟩)))

theorem stepTask_length (client : Client) (i : Nat) (s s' : FanOut)
    (h : (stepTask client i s).res = Result.ret s') : s'.tasks.length = s.tasks.length := by
  rcases stepTask_ret client i s s' h with ⟨u, p, _, _, rfl⟩ | ⟨u, _, _, rfl⟩ | ⟨p, _, rfl⟩ |
    ⟨p, old, _, rfl⟩ | ⟨_, rfl⟩ <;> simp

theorem stepTask_done_stays (client : Client) (i j : Nat) (s s' : FanOut)
    (h : (stepTask client i s).res = Result.ret s') (hj : s.tasks[j]? = some Task.done) :
    s'.tasks[j]? = some Task.done := by
  have hne : ∀ t, s.tasks[i]? = some t → t ≠ Task.done → i ≠ j := by
    intro t ht hne hij
    subst hij
    rw [ht] at hj
    exact hne (Option.some.inj hj)
  rcases stepTask_ret client i s s' h with ⟨u, p, ht, _, rfl⟩ | ⟨u, ht, _, rfl⟩ |
    ⟨p, ht, rfl⟩ | ⟨p, old, ht, rfl⟩ | ⟨_, rfl⟩
  · simp [List.getElem?_set, hne _ ht (by simp), hj]
  · simp [List.getElem?_set, hne _ ht (by simp), hj]
  · simp [List.getElem?_set, hne _ ht (by simp), hj]
  · by_cases hij : i = j
    · subst hij
      rw [ht] at hj
      cases hj
    · simp [List.getElem?_set, hij, hj]
  · exact hj

/-! ## The fan-out: whole schedules -/

theorem runSched_cons_ret (client : Client) (i : Nat) (rest : List Nat) (s s' : FanOut)
    (h : (runSched client (i :: rest) s).res = Result.ret s') :
    ∃ s₁, (stepTask client i s).res = Result.ret s₁ ∧
      (runSched client rest s₁).res = Result.ret s' := by
  simp only [runSched, run_bind] at h
  exact bind_res_ret _ _ _ h

theorem runSched_append_ret (client : Client) (a b : List Nat) (s s' : FanOut)
    (h : (runSched client (a ++ b) s).res = Result.ret s') :
    ∃ s₁, (runSched client a s).res = Result.ret s₁ ∧
      (runSched client b s₁).res = Result.ret s' := by
  induction a generalizing s with
  | nil => exact ⟨s, rfl, h⟩
  | cons i a ih =>
    obtain ⟨s₁, h₁, h₂⟩ := runSched_cons_ret client i (a ++ b) s s' h
    obtain ⟨s₂, h₃, h₄⟩ := ih s₁ h₂
    refine ⟨s₂, ?_, h₄⟩
    simp only [runSched, run_bind, Run.bind, h₁]
    exact h₃

theorem runSched_length (client : Client) (sched : List Nat) (s s' : FanOut)
    (h : (runSched client sched s).res = Result.ret s') :
    s'.tasks.length = s.tasks.length := by
  induction sched generalizing s with
  | nil =>
    simp only [runSched, run_pure, Result.ret.injEq] at h
    rw [h]
  | cons i rest ih =>
    obtain ⟨s₁, h₁, h₂⟩ := runSched_cons_ret client i rest s s' h
    rw [ih s₁ h₂, stepTask_length client i s s₁ h₁]

theorem runSched_done_stays (client : Client) (sched : List Nat) (j : Nat) (s s' : FanOut)
    (h : (runSched client sched s).res = Result.ret s') (hj : s.tasks[j]? = some Task.done) :
    s'.tasks[j]? = some Task.done := by
  induction sched generalizing s with
  | nil =>
    simp only [runSched, run_pure, Result.ret.injEq] at h
    rw [← h]
    exact hj
  | cons i rest ih =>
    obtain ⟨s₁, h₁, h₂⟩ := runSched_cons_ret client i rest s s' h
    exact ih s₁ h₂ (stepTask_done_stays client i j s s₁ h₁ hj)

/-- A step of a goroutine brings it at least one stage further, up to its
end. -/
theorem stepTask_stage (client : Client) (i : Nat) (s s' : FanOut)
    (h : (stepTask client i s).res = Result.ret s') (hi : i < s.tasks.length) :
    ∃ t t', s.tasks[i]? = some t ∧ s'.tasks[i]? = some t' ∧
      min 3 (t.stage + 1) ≤ t'.stage := by
  rcases stepTask_ret client i s s' h with ⟨u, p, ht, _, rfl⟩ | ⟨u, ht, _, rfl⟩ |
    ⟨p, ht, rfl⟩ | ⟨p, old, ht, rfl⟩ | ⟨ht | ht, rfl⟩
  · exact ⟨Task.spawned u, Task.fetched p, ht, by simp [List.getElem?_set, hi],
      by simp [Task.stage]⟩
  · exact ⟨Task.spawned u, Task.done, ht, by simp [List.getElem?_set, hi],
      by simp [Task.stage]⟩
  · exact ⟨Task.fetched p, Task.loaded p s.collection.urls, ht,
      by simp [List.getElem?_set, hi], by simp [Task.stage]⟩
  · exact ⟨Task.loaded p old, Task.done, ht, by simp [List.getElem?_set, hi],
      by simp [Task.stage]⟩
  · exact ⟨Task.done, Task.done, ht, ht, by simp [Task.stage]⟩
  · rw [List.getElem?_eq_none_iff] at ht
    omega

theorem stage_three (t : Task) (h : 3 ≤ t.stage) : t = Task.done := by
  cases t <;> simp [Task.stage] at h ⊢

/-- Three steps bring a goroutine to its end. -/
theorem three_steps_done (client : Client) (i : Nat) (s s' : FanOut)
    (h : (runSched client [i, i, i] s).res = Result.ret s') (hi : i < s.tasks.length) :
    s'.tasks[i]? = some Task.done := by
  obtain ⟨s₁, h₁, h⟩ := runSched_cons_ret client i _ s s' h
  obtain ⟨s₂, h₂, h⟩ := runSched_cons_ret client i _ s₁ s' h
  obtain ⟨s₃, h₃, h⟩ := runSched_cons_ret client i _ s₂ s' h
  simp only [runSched, run_pure, Result.ret.injEq] at h
  subst h
  have l₁ := stepTask_length client i s s₁ h₁
  have l₂ := stepTask_length client i s₁ s₂ h₂
  obtain ⟨t₀, t₁, _, e₁, g₁⟩ := stepTask_stage client i s s₁ h₁ hi
  obtain ⟨t₁', t₂, e₁', e₂, g₂⟩ := stepTask_stage client i s₁ s₂ h₂ (by omega)
  obtain ⟨t₂', t₃, e₂', e₃, g₃⟩ := stepTask_stage client i s₂ s₃ h₃ (by omega)
  rw [e₁] at e₁'
  rw [e₂] at e₂'
  cases e₁'
  cases e₂'
  rw [e₃, stage_three t₃ (by omega)]

/-- After the final round every goroutine has finished. -/
theorem drain_all_done (client : Client) (l : List Nat) (s s' : FanOut)
    (h : (runSched client (l.flatMap (fun i => [i, i, i])) s).res = Result.ret s') :
    ∀ i ∈ l, i < s.tasks.length → s'.tasks[i]? = some Task.done := by
  induction l generalizing s with
  | nil => simp
  | cons k l ih =>
    rw [List.flatMap_cons] at h
    obtain ⟨s₁, h₁, h₂⟩ := runSched_append_ret client _ _ s s' h
    have hl := runSched_length client _ s s₁ h₁
    intro i hi hlt
    rcases List.mem_cons.mp hi with rfl | hi
    · exact runSched_done_stays client _ i s₁ s' h₂ (three_steps_done client i s s₁ h₁ hlt)
    · exact ih s₁ h₂ i hi (by omega)

theorem run_to_end_all_done (client : Client) (sched : List Nat) (s s' : FanOut)
    (h : (runSched client (sched ++ drain s.tasks.length) s).res = Result.ret s') :
    s'.tasks.length = s.tasks.length ∧ ∀ t ∈ s'.tasks, t = Task.done := by
  have hlen := runSched_length client _ s s' h
  obtain ⟨s₁, h₁, h₂⟩ := runSched_append_ret client _ _ s s' h
  have hl₁ := runSched_length client _ s s₁ h₁
  refine ⟨hlen, ?_⟩
  intro t ht
  obtain ⟨i, hi, rfl⟩ := List.getElem_of_mem ht
  have hd := drain_all_done client (List.range s.tasks.length) s₁ s' h₂ i
    (List.mem_range.mpr (by omega)) (by omega)
  rw [List.getElem?_eq_getElem hi] at hd
  exact Option.some.inj hd

/-! ## The fan-out: calls of `addPath` that do not overlap -/

theorem pending_set_same (outcome : String → UrlStatus) (ts : List Task) (i : Nat)
    (t t' : Task) (ht : ts[i]? = some t)
    (hp : Task.pending outcome t' = Task.pending outcome t) :
    (ts.set i t').flatMap (Task.pending outcome) = ts.flatMap (Task.pending outcome) := by
  induction ts generalizing i with
  | nil => simp
  | cons a ts ih =>
    cases i with
    | zero =>
      simp only [List.getElem?_cons_zero, Option.some.injEq] at ht
      subst ht
      simp [hp]
    | succ i =>
      simp only [List.getElem?_cons_succ] at ht
      simp [ih i ht]

theorem pending_set_done (outcome : String → UrlStatus) (ts : List Task) (i : Nat)
    (t : Task) (p : UrlStatus) (ht : ts[i]? = some t) (hp : Task.pending outcome t = [p]) :
    (p :: (ts.set i Task.done).flatMap (Task.pending outcome)).Perm
      (ts.flatMap (Task.pending outcome)) := by
  induction ts generalizing i with
  | nil => simp at ht
  | cons a ts ih =>
    cases i with
    | zero =>
      simp only [List.getElem?_cons_zero, Option.some.injEq] at ht
      subst ht
      simp only [List.set_cons_zero, List.flatMap_cons, hp]
      simp [Task.pending]
    | succ i =>
      simp only [List.getElem?_cons_succ] at ht
      simp only [List.set_cons_succ, List.flatMap_cons]
      exact (List.perm_middle.symm).trans (List.Perm.append_left _ (ih i ht))

theorem mem_of_getElem? {α : Type} (l : List α) (i : Nat) (a : α) (h : l[i]? = some a) :
    a ∈ l := by
  obtain ⟨hi, rfl⟩ := List.getElem?_eq_some.mp h
  exact List.getElem_mem _

theorem not_loaded_of_all (ts : List Task) (h : ts.all (fun t => !t.inAddPath) = true)
    (j : Nat) (q : UrlStatus) (old : List UrlStatus) : ts[j]? ≠ some (Task.loaded q old) := by
  intro hj
  have := List.all_eq_true.mp h _ (mem_of_getElem? ts j _ hj)
  simp [Task.inAddPath] at this

/-- A step that keeps the calls of `addPath` apart returns, prints nothing,
keeps them apart and neither loses nor invents an outcome. -/
theorem stepTask_serialized (client : Client) (outcome : String → UrlStatus) (i : Nat)
    (s : FanOut) (hex : Exclusive s)
    (hfetch : ∀ u, Task.spawned u ∈ s.tasks →
      fuzzUrl u client = { trace := [], res := Result.ret (outcome u) })
    (hmay : mayStep i s = true) :
    ∃ s', stepTask client i s = { trace := [], res := Result.ret s' } ∧ Exclusive s' ∧
      (FanOut.owed outcome s').Perm (FanOut.owed outcome s) ∧
      ∀ u, Task.spawned u ∈ s'.tasks → Task.spawned u ∈ s.tasks := by
  cases ht : s.tasks[i]? with
  | none => exact ⟨s, by simp [stepTask, ht, run_pure], hex, List.Perm.refl _, fun _ h => h⟩
  | some t =>
    have hi : i < s.tasks.length := (List.getElem?_eq_some.mp ht).1
    cases t with
    | done => exact ⟨s, by simp [stepTask, ht, run_pure], hex, List.Perm.refl _, fun _ h => h⟩
    | spawned u =>
      refine ⟨{ s with tasks := s.tasks.set i (Task.fetched (outcome u)) }, ?_, ?_, ?_, ?_⟩
      · simp [stepTask, ht, hfetch u (mem_of_getElem? _ _ _ ht), run_bind, Run.bind, run_pure]
      · intro k p old hk
        have hki : i ≠ k := by
          intro hki
          subst hki
          simp [List.getElem?_set, hi] at hk
        simp only [List.getElem?_set, hki, if_false] at hk
        refine ⟨(hex k p old hk).1, ?_⟩
        intro j q old' hj
        have hji : i ≠ j := by
          intro hji
          subst hji
          simp [List.getElem?_set, hi] at hj
        simp only [List.getElem?_set, hji, if_false] at hj
        exact (hex k p old hk).2 j q old' hj
      · simp only [FanOut.owed]
        rw [pending_set_same outcome s.tasks i _ _ ht (by simp [Task.pending])]
      · intro v hv
        rcases List.mem_or_eq_of_mem_set hv with h | h
        · exact h
        · cases h
    | fetched p =>
      have hnone : s.tasks.all (fun t => !t.inAddPath) = true := by
        simpa [mayStep, ht] using hmay
      refine ⟨{ s with tasks := s.tasks.set i (Task.loaded p s.collection.urls) },
        ?_, ?_, ?_, ?_⟩
      · simp [stepTask, ht, run_pure]
      · have hother : ∀ (j : Nat) q old',
            (s.tasks.set i (Task.loaded p s.collection.urls))[j]? = some (Task.loaded q old') →
            j = i := by
          intro j q old' hj
          by_contra hji
          have hji' : i ≠ j := fun h => hji h.symm
          simp only [List.getElem?_set, hji', if_false] at hj
          exact not_loaded_of_all _ hnone j q old' hj
        intro k q old hk
        have hki := hother k q old hk
        subst hki
        simp only [List.getElem?_set, hi, if_true, Option.some.injEq, Task.loaded.injEq] at hk
        exact ⟨hk.2.symm, hother⟩
      · simp only [FanOut.owed]
        rw [pending_set_same outcome s.tasks i _ _ ht (by simp [Task.pending])]
      · intro v hv
        rcases List.mem_or_eq_of_mem_set hv with h | h
        · exact h
        · cases h
    | loaded p old =>
      obtain ⟨hold, huniq⟩ := hex i p old ht
      refine ⟨{ collection := { urls := old ++ [p] }, tasks := s.tasks.set i Task.done },
        ?_, ?_, ?_, ?_⟩
      · simp [stepTask, ht, run_pure, UrlStatusCollection.addPath]
      · intro k q old' hk
        exfalso
        by_cases hki : i = k
        · subst hki
          simp [List.getElem?_set, hi] at hk
        · simp only [List.getElem?_set, hki, if_false] at hk
          exact hki (huniq k q old' hk).symm
      · simp only [FanOut.owed]
        rw [hold, List.append_assoc]
        exact List.Perm.append_left _
          (pending_set_done outcome s.tasks i _ p ht (by simp [Task.pending]))
      · intro v hv
        rcases List.mem_or_eq_of_mem_set hv with h | h
        · exact h
        · cases h

/-- A whole schedule that keeps the calls of `addPath` apart. -/
theorem runSched_serialized (client : Client) (outcome : String → UrlStatus)
    (sched : List Nat) (s : FanOut) (hex : Exclusive s)
    (hfetch : ∀ u, Task.spawned u ∈ s.tasks →
      fuzzUrl u client = { trace := [], res := Result.ret (outcome u) })
    (hser : Serialized client sched s = true) :
    ∃ s', runSched client sched s = { trace := [], res := Result.ret s' } ∧
      (FanOut.owed outcome s').Perm (FanOut.owed outcome s) := by
  induction sched generalizing s with
  | nil => exact ⟨s, rfl, List.Perm.refl _⟩
  | cons i rest ih =>
    simp only [Serialized, Bool.and_eq_true] at hser
    obtain ⟨s₁, h₁, hex₁, hperm₁, hsp₁⟩ :=
      stepTask_serialized client outcome i s hex hfetch hser.1
    have hser₂ := hser.2
    rw [h₁] at hser₂
    obtain ⟨s', h₂, hperm₂⟩ := ih s₁ hex₁ (fun u hu => hfetch u (hsp₁ u hu)) hser₂
    refine ⟨s', ?_, hperm₂.trans hperm₁⟩
    simp [runSched, run_bind, Run.bind, h₁, h₂]

theorem owed_all_done (outcome : String → UrlStatus) (s : FanOut)
    (h : ∀ t ∈ s.tasks, t = Task.done) : FanOut.owed outcome s = s.collection.urls := by
  have : s.tasks.flatMap (Task.pending outcome) = [] := by
    rw [List.flatMap_eq_nil_iff]
    intro t ht
    rw [h t ht]
    rfl
  simp [FanOut.owed, this]

/-- From a state in which no goroutine is inside `addPath`, a schedule that
keeps the calls apart, followed by the final round, ends with every outcome in
the collection exactly once. -/
theorem run_to_end_serialized (client : Client) (outcome : String → UrlStatus)
    (sched : List Nat) (s : FanOut) (hex : Exclusive s)
    (hfetch : ∀ u, Task.spawned u ∈ s.tasks →
      fuzzUrl u client = { trace := [], res := Result.ret (outcome u) })
    (hser : Serialized client (sched ++ drain s.tasks.length) s = true) :
    ∃ s', runSched client (sched ++ drain s.tasks.length) s
        = { trace := [], res := Result.ret s' } ∧
      s'.collection.urls.Perm (FanOut.owed outcome s) := by
  obtain ⟨s', hrun, hperm⟩ := runSched_serialized client outcome _ s hex hfetch hser
  refine ⟨s', hrun, ?_⟩
  have hdone := (run_to_end_all_done client sched s s' (by rw [hrun])).2
  rw [owed_all_done outcome s' hdone] at hperm
  exact hperm

/-! ## The fan-out: fetches -/

theorem fuzzUrl_ok (url : String) (client : Client)
    (h : ∃ r, client.Get url = (some r, none) ∧ r.Body.closeErr = none) :
    fuzzUrl url client =
      { trace := [], res := Result.ret { url := url, StatusCode := statusOf client url } } := by
  obtain ⟨r, hget, hclose⟩ := h
  simp [fuzzUrl, statusOf, hget, hclose, run_bind, Run.bind, eHandler_none, run_pure]

theorem exclusive_init (urls : List String) : Exclusive (FanOut.init urls) := by
  intro i p old h
  simp [FanOut.init, List.getElem?_map] at h

theorem exclusive_fetched (paths : List UrlStatus) : Exclusive (FanOut.fetched paths) := by
  intro i p old h
  simp [FanOut.fetched, List.getElem?_map] at h

theorem owed_init (outcome : String → UrlStatus) (urls : List String) :
    FanOut.owed outcome (FanOut.init urls) = urls.map outcome := by
  simp only [FanOut.owed, FanOut.init, List.nil_append]
  induction urls with
  | nil => rfl
  | cons u urls ih => simp [Task.pending, ih]

theorem owed_fetched (outcome : String → UrlStatus) (paths : List UrlStatus) :
    FanOut.owed outcome (FanOut.fetched paths) = paths := by
  simp only [FanOut.owed, FanOut.fetched, List.nil_append]
  induction paths with
  | nil => rfl
  | cons u urls ih => simp [Task.pending, ih]

/-- When every fetch returns and the calls of `addPath` do not overlap,
`fuzzUrls` returns every outcome exactly once. -/
theorem fuzzUrls_serialized (client : Client) (urls : List String) (sched : List Nat)
    (hget : ∀ u ∈ urls, ∃ r, client.Get u = (some r, none) ∧ r.Body.closeErr = none)
    (hser : Serialized client (sched ++ drain urls.length) (FanOut.init urls) = true) :
    ∃ c, fuzzUrls client urls sched = { trace := [], res := Result.ret c } ∧
      c.urls.Perm (urls.map (fun u => { url := u, StatusCode := statusOf client u })) := by
  have hlen : (FanOut.init urls).tasks.length = urls.length := by simp [FanOut.init]
  have hfetch : ∀ u, Task.spawned u ∈ (FanOut.init urls).tasks →
      fuzzUrl u client =
        { trace := [], res := Result.ret { url := u, StatusCode := statusOf client u } } := by
    intro u hu
    simp only [FanOut.init, List.mem_map] at hu
    obtain ⟨v, hv, hvu⟩ := hu
    cases hvu
    exact fuzzUrl_ok u client (hget u hv)
  rw [← hlen] at hser
  obtain ⟨s', hrun, hperm⟩ := run_to_end_serialized client
    (fun u => { url := u, StatusCode := statusOf client u }) sched (FanOut.init urls)
    (exclusive_init urls) hfetch hser
  rw [hlen] at hrun
  rw [owed_init] at hperm
  refine ⟨s'.collection, ?_, hperm⟩
  simp [fuzzUrls, run_bind, Run.bind, hrun, run_pure]

/-- A returning step leaves a goroutine whose `fuzzUrl` exits the process
where it started. -/
theorem stepTask_exiting_stays (client : Client) (i k : Nat) (u : String) (s s' : FanOut)
    (code : Int) (hexit : (fuzzUrl u client).res = Result.exit code)
    (h : (stepTask client i s).res = Result.ret s')
    (hk : s.tasks[k]? = some (Task.spawned u)) : s'.tasks[k]? = some (Task.spawned u) := by
  have hne : ∀ t, s.tasks[i]? = some t → t ≠ Task.spawned u → i ≠ k := by
    intro t ht hne hik
    subst hik
    rw [ht] at hk
    exact hne (Option.some.inj hk)
  have hsame : ∀ v, s.tasks[i]? = some (Task.spawned v) →
      (fuzzUrl v client).res ≠ Result.exit code → i ≠ k := by
    intro v ht hv hik
    subst hik
    rw [ht] at hk
    cases hk
    exact hv hexit
  rcases stepTask_ret client i s s' h with ⟨v, p, ht, hp, rfl⟩ | ⟨v, ht, hp, rfl⟩ |
    ⟨p, ht, rfl⟩ | ⟨p, old, ht, rfl⟩ | ⟨_, rfl⟩
  · simp [List.getElem?_set, hsame v ht (by rw [hp]; simp), hk]
  · simp [List.getElem?_set, hsame v ht (by rw [hp]; simp), hk]
  · simp [List.getElem?_set, hne _ ht (by simp), hk]
  · simp [List.getElem?_set, hne _ ht (by simp), hk]
  · exact hk

theorem runSched_exiting_stays (client : Client) (sched : List Nat) (k : Nat) (u : String)
    (s s' : FanOut) (code : Int) (hexit : (fuzzUrl u client).res = Result.exit code)
    (h : (runSched client sched s).res = Result.ret s')
    (hk : s.tasks[k]? = some (Task.spawned u)) : s'.tasks[k]? = some (Task.spawned u) := by
  induction sched generalizing s with
  | nil =>
    simp only [runSched, run_pure, Result.ret.injEq] at h
    rw [← h]
    exact hk
  | cons i rest ih =>
    obtain ⟨s₁, h₁, h₂⟩ := runSched_cons_ret client i rest s s' h
    exact ih s₁ h₂ (stepTask_exiting_stays client i k u s s₁ code hexit h₁ hk)

/-- No collection is returned when `fuzzUrl` exits the process for one of the
urls: its goroutine never calls `wg.Done()`. -/
theorem fuzzUrls_exiting_fetch (client : Client) (urls : List String) (sched : List Nat)
    (u : String) (hu : u ∈ urls) (code : Int)
    (hexit : (fuzzUrl u client).res = Result.exit code)
    (c : UrlStatusCollection) : (fuzzUrls client urls sched).res ≠ Result.ret c := by
  intro h
  simp only [fuzzUrls, run_bind] at h
  obtain ⟨s', hrun, _⟩ := bind_res_ret _ _ _ h
  have hlen : (FanOut.init urls).tasks.length = urls.length := by simp [FanOut.init]
  rw [← hlen] at hrun
  obtain ⟨hl, hdone⟩ := run_to_end_all_done client sched (FanOut.init urls) s' hrun
  obtain ⟨k, hk, rfl⟩ := List.getElem_of_mem hu
  have hinit : (FanOut.init urls).tasks[k]? = some (Task.spawned urls[k]) := by
    simp [FanOut.init, List.getElem?_map, List.getElem?_eq_getElem hk]
  have hstay := runSched_exiting_stays client _ k _ _ s' code hexit hrun hinit
  have := hdone _ (mem_of_getElem? _ _ _ hstay)
  cases this

/-! ## Claims about the fan-out -/

/-- C1, as amended: when `client.Get(url)` returns a non-nil error together
with a response, `fuzzUrl` returns no outcome: `eHandler` prints "Error
connecting to: <url>" and exits the process with code 1. `fuzzUrls` then
returns no collection for any list that contains the url, whatever the
schedule. -/
theorem fuzzUrl_transport_error_ends_process (url : String) (client : Client)
    (r : Response) (e : GoError) (hget : client.Get url = (some r, some e)) :
    fuzzUrl url client =
        { trace := [Event.print ("Error connecting to: " ++ url)], res := Result.exit 1 } ∧
      (∀ urls sched c, url ∈ urls → (fuzzUrls client urls sched).res ≠ Result.ret c) := by
  have hrun : fuzzUrl url client =
      { trace := [Event.print ("Error connecting to: " ++ url)], res := Result.exit 1 } := by
    simp [fuzzUrl, hget, run_bind, Run.bind, eHandler_some]
  refine ⟨hrun, ?_⟩
  intro urls sched c hu
  exact fuzzUrls_exiting_fetch client urls sched url hu 1 (by rw [hrun]) c

theorem fuzzUrl_transport_error_ends_process_witness :
    webClient.Get "http://loop.test" =
        (some { StatusCode := 302, Body := { closeErr := none } },
          some (GoError.other "stopped after 10 redirects")) ∧
      fuzzUrl "http://loop.test" webClient =
        { trace := [Event.print ("Error connecting to: " ++ "http://loop.test")],
          res := Result.exit 1 } ∧
      ∀ c, (fuzzUrls webClient ["http://ok.test", "http://loop.test"] [0, 1, 0]).res ≠
        Result.ret c :=
  ⟨by decide,
   (fuzzUrl_transport_error_ends_process "http://loop.test" webClient
      { StatusCode := 302, Body := { closeErr := none } }
      (GoError.other "stopped after 10 redirects") (by decide)).1,
   fun c => (fuzzUrl_transport_error_ends_process "http://loop.test" webClient
      { StatusCode := 302, Body := { closeErr := none } }
      (GoError.other "stopped after 10 redirects") (by decide)).2
      ["http://ok.test", "http://loop.test"] [0, 1, 0] c (by decide)⟩

/-- C1, as stated, fails: the GET of "http://loop.test" returns an error, and
`fuzzUrl` exits the process with code 1 instead of returning an outcome; in
`fuzzUrls`, after the goroutine of "http://ok.test" has appended its outcome,
the goroutine of "http://loop.test" exits the process and no collection is
returned. -/
theorem fuzzUrl_transport_error_counterexample :
    webClient.Get "http://loop.test" =
        (some { StatusCode := 302, Body := { closeErr := none } },
          some (GoError.other "stopped after 10 redirects")) ∧
      (fuzzUrl "http://loop.test" webClient).res = Result.exit 1 ∧
      fuzzUrls webClient ["http://ok.test", "http://loop.test"] [0, 0, 0, 1] =
        { trace := [Event.print "Error connecting to: http://loop.test"],
          res := Result.exit 1 } := by
  decide

/-- C2, as amended: when every GET returns a response and no error, every
response body closes without error, and the calls of `addPath` do not overlap
in the schedule, the collection `fuzzUrls` returns has exactly as many entries
as there are urls, and the url fields of the entries are a permutation of the
urls. -/
theorem fuzzUrls_one_entry_per_url (client : Client) (urls : List String) (sched : List Nat)
    (hget : ∀ u ∈ urls, ∃ r, client.Get u = (some r, none) ∧ r.Body.closeErr = none)
    (hser : Serialized client (sched ++ drain urls.length) (FanOut.init urls) = true) :
    ∃ c, fuzzUrls client urls sched = { trace := [], res := Result.ret c } ∧
      c.urls.length = urls.length ∧ (c.urls.map UrlStatus.url).Perm urls := by
  obtain ⟨c, hrun, hperm⟩ := fuzzUrls_serialized client urls sched hget hser
  refine ⟨c, hrun, ?_, ?_⟩
  · simpa using hperm.length_eq
  · have := hperm.map UrlStatus.url
    simpa [Function.comp_def] using this

theorem fuzzUrls_one_entry_per_url_witness :
    Serialized allOkClient ([1, 1, 0, 1, 0] ++ drain 2)
        (FanOut.init ["http://a.test", "http://b.test"]) = true ∧
      ∃ c, fuzzUrls allOkClient ["http://a.test", "http://b.test"] [1, 1, 0, 1, 0]
          = { trace := [], res := Result.ret c } ∧
        c.urls.length = 2 ∧
        (c.urls.map UrlStatus.url).Perm ["http://a.test", "http://b.test"] :=
  ⟨by decide,
   fuzzUrls_one_entry_per_url allOkClient ["http://a.test", "http://b.test"] [1, 1, 0, 1, 0]
     (fun _ _ => ⟨{ StatusCode := 200, Body := { closeErr := none } }, rfl, rfl⟩) (by decide)⟩

/-- C2, as stated, fails: with three urls that all answer, under the schedule
in which every goroutine reads `pc.urls` before any writes it back, `fuzzUrls`
returns a collection of one entry. -/
theorem fuzzUrls_lost_entries :
    fuzzUrls allOkClient ["http://a.test", "http://b.test", "http://c.test"]
        [0, 1, 2, 0, 1, 2, 0, 1, 2] =
      { trace := [],
        res := Result.ret { urls := [{ url := "http://c.test", StatusCode := 200 }] } } ∧
      [({ url := "http://c.test", StatusCode := 200 } : UrlStatus)].length ≠
        ["http://a.test", "http://b.test", "http://c.test"].length := by
  decide

/-- C4, as amended: `addPath` takes no lock; in every schedule in which the
calls of `addPath` do not overlap, no outcome is lost or corrupted: from the
point where each goroutine holds its outcome, the run ends with a collection
that holds exactly these outcomes, each once. -/
theorem addPath_not_overlapping (client : Client) (paths : List UrlStatus) (sched : List Nat)
    (hser : Serialized client (sched ++ drain paths.length) (FanOut.fetched paths) = true) :
    ∃ s', runSched client (sched ++ drain paths.length) (FanOut.fetched paths)
        = { trace := [], res := Result.ret s' } ∧
      s'.collection.urls.Perm paths := by
  have hlen : (FanOut.fetched paths).tasks.length = paths.length := by simp [FanOut.fetched]
  have hfetch : ∀ u, Task.spawned u ∈ (FanOut.fetched paths).tasks →
      fuzzUrl u client =
        { trace := [], res := Result.ret { url := u, StatusCode := statusOf client u } } := by
    intro u hu
    simp [FanOut.fetched] at hu
  rw [← hlen] at hser
  obtain ⟨s', hrun, hperm⟩ := run_to_end_serialized client
    (fun u => { url := u, StatusCode := statusOf client u }) sched (FanOut.fetched paths)
    (exclusive_fetched paths) hfetch hser
  rw [hlen] at hrun
  rw [owed_fetched] at hperm
  exact ⟨s', hrun, hperm⟩

theorem addPath_not_overlapping_witness :
    Serialized allOkClient ([2, 2, 0, 0] ++ drain 3)
        (FanOut.fetched [{ url := "http://a.test", StatusCode := 200 },
          { url := "http://b.test", StatusCode := 404 },
          { url := "http://c.test", StatusCode := 500 }]) = true ∧
      ∃ s', runSched allOkClient ([2, 2, 0, 0] ++ drain 3)
          (FanOut.fetched [{ url := "http://a.test", StatusCode := 200 },
            { url := "http://b.test", StatusCode := 404 },
            { url := "http://c.test", StatusCode := 500 }])
          = { trace := [], res := Result.ret s' } ∧
        s'.collection.urls.Perm [{ url := "http://a.test", StatusCode := 200 },
          { url := "http://b.test", StatusCode := 404 },
          { url := "http://c.test", StatusCode := 500 }] :=
  ⟨by decide,
   addPath_not_overlapping allOkClient [{ url := "http://a.test", StatusCode := 200 },
      { url := "http://b.test", StatusCode := 404 },
      { url := "http://c.test", StatusCode := 500 }] [2, 2, 0, 0] (by decide)⟩

/-- C4, as stated, fails: two goroutines that both read `pc.urls` before either
writes it back lose the first one's outcome, in `addPath` alone and in
`fuzzUrls` as a whole. -/
theorem addPath_overlapping_loses_outcome :
    runSched allOkClient ([0, 1, 0, 1] ++ drain 2)
        (FanOut.fetched [{ url := "http://a.test", StatusCode := 200 },
          { url := "http://b.test", StatusCode := 404 }]) =
      { trace := [],
        res := Result.ret
          { collection := { urls := [{ url := "http://b.test", StatusCode := 404 }] },
            tasks := [Task.done, Task.done] } } ∧
      fuzzUrls allOkClient ["http://a.test", "http://b.test"] [0, 1, 0, 1, 0, 1] =
        { trace := [],
          res := Result.ret { urls := [{ url := "http://b.test", StatusCode := 200 }] } } := by
  decide

/-! ## The whole run -/

theorem printsOnly_append (a b : List Event) (ha : PrintsOnly a) (hb : PrintsOnly b) :
    PrintsOnly (a ++ b) := by
  intro e he
  rcases List.mem_append.mp he with h | h
  · exact ha e h
  · exact hb e h

theorem displayIntro_printsOnly : PrintsOnly displayIntro.trace := by
  intro e he
  simp [displayIntro, run_bind, Run.bind, Println] at he
  rcases he with h | h | h | h | h | h | h | h | h | h <;> exact ⟨_, h⟩

theorem validateFlags_pass (os : OS) (l o : String) (hf : fileExists os l = true) :
    validateFlags os false l o =
      { trace := if o.length ≤ 0 then [Event.print "Please provide Path to output file"]
                 else [],
        res := Result.ret () } := by
  by_cases ho : o.length ≤ 0 <;>
    simp [validateFlags, hf, ho, run_bind, Run.bind, Println, run_pure]

/-- The run up to the call of `fuzzUrls`, once the flags are accepted and the
endpoint list is read. -/
theorem main_reaches_fuzzUrls (os : OS) (client : Client) (l o : String) (sched : List Nat)
    (eps : List String) (hf : fileExists os l = true)
    (hlist : getEndpointList os l = { trace := [], res := Result.ret eps }) :
    ∃ pre, PrintsOnly pre ∧
      main os client false l o sched =
        Run.bind { trace := pre, res := Result.ret () }
          (fun _ => Run.bind (fuzzUrls client eps sched)
            (fun results => writeOutput os results o)) := by
  refine ⟨displayIntro.trace ++
    (if o.length ≤ 0 then [Event.print "Please provide Path to output file"] else []), ?_, ?_⟩
  · refine printsOnly_append _ _ displayIntro_printsOnly ?_
    intro e he
    split at he
    · simp at he
      exact ⟨_, he⟩
    · simp at he
  · have hintro : displayIntro.res = Result.ret () := rfl
    have halive : displayIntro.dying = none := rfl
    simp [main, parseFlags, run_bind, Run.bind, hintro, halive, validateFlags_pass os l o hf,
      hlist, run_pure, dyingThen]

/-- A goroutine that panics leaves the run dying, not ended: on an empty
endpoint list with a client that refuses the empty url, the goroutine panics
after the ten lines of the banner, `fuzzUrls` returns the empty collection and
`writeOutput` creates the output file, if the process lives that long. -/
theorem main_goroutine_panic_dying :
    main (diskOS "") webClient false "urls.txt" "result.txt" [] =
      { trace := displayIntro.trace ++ [Event.create "result.txt"],
        res := Result.ret (),
        dying := some 10 } := by
  decide

/-- C6, as amended: when the endpoint list file exists, opens, closes and reads
as the empty content, `getEndpointList` returns the one-entry list `[""]`, so
the run submits exactly one endpoint, the empty string: `fuzzUrls` starts one
goroutine, for the url "", and after the banner and the check of the flags,
which touch no file, `main` is `fuzzUrls` on `[""]` followed by `writeOutput`
on the collection it returns. -/
theorem main_empty_list (os : OS) (client : Client) (l o : String) (sched : List Nat)
    (hexists : fileExists os l = true) (hopen : (os.Open l).2 = none)
    (hclose : File.Close (os.Open l).1 = none) (hread : os.ReadFile l = ("", none)) :
    getEndpointList os l = { trace := [], res := Result.ret [""] } ∧
      (FanOut.init [""]).tasks = [Task.spawned ""] ∧
      ∃ pre, PrintsOnly pre ∧
        main os client false l o sched =
          Run.bind { trace := pre, res := Result.ret () }
            (fun _ => Run.bind (fuzzUrls client [""] sched)
              (fun results => writeOutput os results o)) := by
  have hlist : getEndpointList os l = { trace := [], res := Result.ret [""] } := by
    unfold getEndpointList
    rcases hO : os.Open l with ⟨fh, err⟩
    rw [hO] at hopen hclose
    simp only at hopen hclose
    subst hopen
    simp [hread, hclose, run_bind, Run.bind, eHandler_none, run_pure]
    decide
  exact ⟨hlist, rfl, main_reaches_fuzzUrls os client l o sched [""] hexists hlist⟩

theorem main_empty_list_witness :
    fileExists (diskOS "") "urls.txt" = true ∧
      (diskOS "").ReadFile "urls.txt" = ("", none) ∧
      getEndpointList (diskOS "") "urls.txt" = { trace := [], res := Result.ret [""] } ∧
      (FanOut.init [""]).tasks = [Task.spawned ""] ∧
      ∃ pre, PrintsOnly pre ∧
        main (diskOS "") webClient false "urls.txt" "result.txt" [0, 0] =
          Run.bind { trace := pre, res := Result.ret () }
            (fun _ => Run.bind (fuzzUrls webClient [""] [0, 0])
              (fun results => writeOutput (diskOS "") results "result.txt")) :=
  ⟨rfl, rfl,
   main_empty_list (diskOS "") webClient "urls.txt" "result.txt" [0, 0] rfl rfl rfl rfl⟩

/-- C6, as stated, fails: on an empty endpoint list file `getEndpointList`
returns one endpoint, the empty string, not none, and `fuzzUrls` starts a
goroutine for it. -/
theorem main_empty_list_counterexample :
    (diskOS "").ReadFile "urls.txt" = ("", none) ∧
      getEndpointList (diskOS "") "urls.txt" = { trace := [], res := Result.ret [""] } ∧
      (getEndpointList (diskOS "") "urls.txt").res ≠ Result.ret [] ∧
      (FanOut.init [""]).tasks.length = 1 := by
  decide

end Endpointping
